import Mathlib

/-!
Verification of the large-object (SLO/DLO) middleware found in
`proxyserver/middleware/largeobject.go` of the hummingbird object store.

The Go code is shallowly embedded: each Go function that a claim depends on
is translated to a pure Lean function over explicit inputs.  `int64` values
are modelled as `Int` (the quantities involved are object sizes and byte
offsets, far below the overflow boundary; the one place where 64-bit
clamping is observable, `strconv.ParseInt` inside `needToRefetchManifest`,
models the clamp explicitly).  Go strings are modelled as Lean `String`,
with Go's `strings` helpers re-implemented faithfully below.

The shared helper `common.ParseRange` (and `common.HttpRange`) lives in a
file of this repository that is not part of the sources under review; it is
modelled from the spec, see `ParseRange` below.
-/

namespace LargeObject

/-- `common.HttpRange`: a half-open byte range, `End` exclusive. -/
structure HttpRange where
  Start : Int
  End : Int
deriving DecidableEq, Repr

/-! ### Go string helpers

Faithful models of the `strings` library calls made by `largeobject.go`. -/

/-- `strings.TrimLeft(s, "/")`: drop leading `/` characters. -/
def goTrimLeftSlash (s : List Char) : List Char :=
  s.dropWhile (fun c => c = '/')

/-- `strings.Trim(s, "\"")`: drop leading and trailing `"` characters. -/
def goTrimQuote (s : String) : String :=
  ⟨((s.data.dropWhile (fun c => c = '"')).reverse.dropWhile (fun c => c = '"')).reverse⟩

/-- `strings.Split(s, sep)` for a one-character separator.
`goSplitChar [] c = [[]]`, matching Go's `Split("", sep) = [""]`. -/
def goSplitChar (sep : Char) : List Char → List (List Char)
  | [] => [[]]
  | c :: cs =>
    if c = sep then [] :: goSplitChar sep cs
    else
      match goSplitChar sep cs with
      | h :: t => (c :: h) :: t
      | [] => [[c]]

/-- `strings.SplitN(s, sep, 2)` for a one-character separator: split at the
first occurrence only. -/
def goSplitN2 (sep : Char) : List Char → List (List Char)
  | [] => [[]]
  | c :: cs =>
    if c = sep then [[], cs]
    else
      match goSplitN2 sep cs with
      | h :: t => (c :: h) :: t
      | [] => [[c]]

/-- Number of occurrences of a character, `strings.Count(s, "-")` for a
one-character substring. -/
def goCountChar (sep : Char) (s : List Char) : Nat :=
  (s.filter (fun c => c = sep)).length

/-- Decimal value of a list of digit characters. -/
def digitsVal (cs : List Char) : Nat :=
  cs.foldl (fun a c => a * 10 + (c.toNat - 48)) 0

/-- Parse a non-empty all-digit string to its decimal value. -/
def parseDigits (cs : List Char) : Option Nat :=
  if cs = [] then none
  else if cs.any (fun c => !c.isDigit) then none
  else some (digitsVal cs)

/-- Decimal digit list of a natural number, most significant digit first
(the digits `fmt.Sprintf("%d", n)` produces). -/
def natDigits (n : Nat) : List Char :=
  if h : n < 10 then [Char.ofNat (48 + n)]
  else natDigits (n / 10) ++ [Char.ofNat (48 + n % 10)]
  decreasing_by
    exact Nat.div_lt_self (by omega) (by omega)

/-- `fmt.Sprintf("%d", i)` for an `int64` value. -/
def intToStr (i : Int) : String :=
  if i < 0 then ⟨'-' :: natDigits (-i).toNat⟩ else ⟨natDigits i.toNat⟩

/-! ### `common.ParseRange`, modelled from the spec

`common.ParseRange(rangeHeader, size)` is code of this repository that is
not among the sources under review (only its callers are).

Modelled from the spec: "Parse request range: delegated to the shared range
parser, which yields one-or-more ranges"; "Byte range (half-open internal
form). `{start, end}` where `end` is exclusive. The wire form `bytes=a-b`
is inclusive and is normalized on parse"; "`range`, if set, contains
exactly one `-`"; and the invariant "if `range` is set it parses against
`bytes` to exactly one inclusive range".  The header must carry the
`bytes=` prefix; the remainder is a comma-separated list of range items
`a-b` (both endpoints decimal, inclusive), `a-` (from `a` to the end) or
`-n` (the last `n` bytes).  Every returned range is normalized to a
half-open, in-bounds, non-empty `{start, end}`; an item that cannot be
satisfied against `size` is an error. -/

def checkRange (st en size : Int) : Except String HttpRange :=
  if 0 ≤ st ∧ st < en ∧ en ≤ size then .ok ⟨st, en⟩
  else .error "unsatisfiable range"

def parseRangeAB (size : Int) (a b : List Char) : Except String HttpRange :=
  if a = [] ∧ b = [] then .error "invalid range format"
  else if a = [] then
    match parseDigits b with
    | none => .error "invalid range format"
    | some n => checkRange (max (size - (n : Int)) 0) size size
  else if b = [] then
    match parseDigits a with
    | none => .error "invalid range format"
    | some st => checkRange (st : Int) size size
  else
    match parseDigits a, parseDigits b with
    | some a0, some b0 => checkRange (a0 : Int) (min ((b0 : Int) + 1) size) size
    | _, _ => .error "invalid range format"

def parseRangeItem (size : Int) (item : List Char) : Except String HttpRange :=
  match goSplitChar '-' item with
  | [a, b] => parseRangeAB size a b
  | _ => .error "invalid range format"

def parseRanges (size : Int) : List (List Char) → Except String (List HttpRange)
  | [] => .ok []
  | it :: rest =>
    match parseRangeItem size it, parseRanges size rest with
    | .ok r, .ok rs => .ok (r :: rs)
    | .error e, _ => .error e
    | .ok _, .error e => .error e

def ParseRange (hdr : String) (size : Int) : Except String (List HttpRange) :=
  match hdr.data with
  | 'b' :: 'y' :: 't' :: 'e' :: 's' :: '=' :: rest =>
    parseRanges size (goSplitChar ',' rest)
  | _ => .error "invalid range format"

/-- Every range produced by the modelled parser is in bounds and non-empty. -/
theorem checkRange_ok {st en size : Int} {r : HttpRange}
    (h : checkRange st en size = .ok r) :
    0 ≤ r.Start ∧ r.Start < r.End ∧ r.End ≤ size := by
  unfold checkRange at h
  split at h
  · cases h
    exact ‹0 ≤ st ∧ st < en ∧ en ≤ size›
  · cases h

theorem parseRangeAB_ok {size : Int} {a b : List Char} {r : HttpRange}
    (h : parseRangeAB size a b = .ok r) :
    0 ≤ r.Start ∧ r.Start < r.End ∧ r.End ≤ size := by
  unfold parseRangeAB at h
  repeat' split at h
  all_goals first
    | exact checkRange_ok h
    | cases h

theorem parseRangeItem_ok {size : Int} {item : List Char} {r : HttpRange}
    (h : parseRangeItem size item = .ok r) :
    0 ≤ r.Start ∧ r.Start < r.End ∧ r.End ≤ size := by
  unfold parseRangeItem at h
  split at h
  · exact parseRangeAB_ok h
  · cases h

theorem parseRanges_ok {size : Int} {items : List (List Char)}
    {rs : List HttpRange} (h : parseRanges size items = .ok rs) :
    ∀ r ∈ rs, 0 ≤ r.Start ∧ r.Start < r.End ∧ r.End ≤ size := by
  induction items generalizing rs with
  | nil =>
    unfold parseRanges at h
    cases h
    intro r hr
    cases hr
  | cons it rest ih =>
    unfold parseRanges at h
    split at h
    · cases h
      intro r hr
      rcases List.mem_cons.mp hr with h1 | h2
      · subst h1
        exact parseRangeItem_ok ‹_›
      · exact ih ‹_› r h2
    · cases h
    · cases h

theorem ParseRange_ok {hdr : String} {size : Int} {rs : List HttpRange}
    (h : ParseRange hdr size = .ok rs) :
    ∀ r ∈ rs, 0 ≤ r.Start ∧ r.Start < r.End ∧ r.End ≤ size := by
  unfold ParseRange at h
  split at h
  · exact parseRanges_ok h
  · cases h

/-! ### Segment descriptors (`segItem`, `sloPutManifest`, `splitSegPath`) -/

/-- `segItem`: one entry of a persisted SLO manifest. -/
structure segItem where
  Hash : String
  LastModified : String
  Bytes : Int
  Name : String
  ContentType : String
  Range : String
  SubSlo : Bool
deriving DecidableEq, Repr

/-- `sloPutManifest`: one entry of the client-supplied PUT manifest. -/
structure sloPutManifest where
  Path : String
  Etag : String
  SizeBytes : Int
  Range : String
deriving DecidableEq, Repr

/-- `segItem.makeRange`: the segment range specified, or a range for the
whole body.  The source returns `ranges[0]` when the parse succeeded with
exactly one range and falls back to `{0, Bytes}` otherwise. -/
def segItem.makeRange (si : segItem) : HttpRange :=
  if si.Range ≠ "" then
    match ParseRange ("bytes=" ++ si.Range) si.Bytes with
    | .ok [r] => r
    | _ => ⟨0, si.Bytes⟩
  else ⟨0, si.Bytes⟩

/-- `segItem.segLenHash`: the segment's contribution length and hash token.
With a (non-empty) `Range` the length comes from `makeRange` and the token
is `fmt.Sprintf("%s:%s;", Hash, Range)`; without one they are `Bytes` and
`Hash`. -/
def segItem.segLenHash (si : segItem) : Int × String :=
  if si.Range ≠ "" then
    let segRange := si.makeRange
    (segRange.End - segRange.Start, si.Hash ++ ":" ++ si.Range ++ ";")
  else (si.Bytes, si.Hash)

/-- `splitSegPath`: trim leading `/`, split into exactly two non-empty
components on the first `/`. -/
def splitSegPath (thePath : String) : Except String (String × String) :=
  match goSplitN2 '/' (goTrimLeftSlash thePath.data) with
  | [a, b] =>
    if a = [] ∨ b = [] then .error ("invalid segment path: " ++ thePath)
    else .ok (⟨a⟩, ⟨b⟩)
  | _ => .error ("invalid segment path: " ++ thePath)

/-! ### Refetch decision (`needToRefetchManifest`) -/

/-- Leading digit run of a character list. -/
def spanDigits : List Char → List Char × List Char
  | [] => ([], [])
  | c :: cs =>
    if c.isDigit then
      match spanDigits cs with
      | (d, r) => (c :: d, r)
    else ([], c :: cs)

/-- The submatch `regexp.MustCompile("bytes (d+)-(d+)/(d+)$")` (with `d+`
standing for one-or-more digits) finds in `s`.  Because the pattern is
anchored at the end of the string only, a match is a suffix of `s` of the
shape `"bytes " ++ d1 ++ "-" ++ d2 ++ "/" ++ d3`; the digit runs are
delimited by the non-digit characters around them, so at most one suffix of
that shape exists and the captures are its three digit runs. -/
def contentRangeRegexMatch (s : String) : Option (String × String × String) :=
  match spanDigits s.data.reverse with
  | (d3r, '/' :: r2) =>
    match spanDigits r2 with
    | (d2r, '-' :: r4) =>
      match spanDigits r4 with
      | (d1r, ' ' :: 's' :: 'e' :: 't' :: 'y' :: 'b' :: _) =>
        if d1r = [] ∨ d2r = [] ∨ d3r = [] then none
        else some (⟨d1r.reverse⟩, ⟨d2r.reverse⟩, ⟨d3r.reverse⟩)
      | _ => none
    | _ => none
  | _ => none

/-- `strconv.ParseInt(s, 10, 64)` applied to a non-empty digit string with
the error ignored (as the source does): the decimal value, except that a
value beyond `int64` range yields the maximum `int64`. -/
def parseIntGo (s : String) : Int :=
  let v : Int := digitsVal s.data
  if v > 9223372036854775807 then 9223372036854775807 else v

/-- The request attributes `needToRefetchManifest` reads. -/
structure RefetchInput where
  method : String
  rangeHdr : String
  status : Int
  contentRange : String
deriving DecidableEq, Repr

/-- `needToRefetchManifest`, translated branch for branch from the source. -/
def needToRefetchManifest (inp : RefetchInput) : Bool :=
  if inp.method = "HEAD" then true
  else if inp.rangeHdr ≠ "" ∧ inp.status = 416 then true
  else if inp.rangeHdr ≠ "" ∧ (inp.status = 200 ∨ inp.status = 206) then
    match contentRangeRegexMatch inp.contentRange with
    | none => true
    | some (d1, d2, d3) =>
      let e := parseIntGo d2
      let l := parseIntGo d3
      ¬ (d1 = "0" ∧ e = l - 1)
  else false

/-- A whole string of the exact shape `"bytes " ++ A ++ "-" ++ B ++ "/" ++ C`
with `A`, `B`, `C` non-empty digit runs — the spec's "Content-Range reply of
the form `bytes A-B/C`". -/
def contentRangeExact (s : String) : Option (String × String × String) :=
  match s.data with
  | 'b' :: 'y' :: 't' :: 'e' :: 's' :: ' ' :: rest =>
    match goSplitChar '/' rest with
    | [ab, c] =>
      match goSplitChar '-' ab with
      | [a, b] =>
        if a = [] ∨ b = [] ∨ c = [] then none
        else if a.any (fun ch => !ch.isDigit) ∨ b.any (fun ch => !ch.isDigit)
            ∨ c.any (fun ch => !ch.isDigit) then none
        else some (⟨a⟩, ⟨b⟩, ⟨c⟩)
      | _ => none
    | _ => none
  | _ => none

/-- The refetch decision table exactly as the claim states it: refetch on
HEAD; on Range with 416; on Range with 200/206 and an absent or malformed
`Content-Range` (one not of the exact form `bytes A-B/C`); no refetch when
the exact-form `Content-Range` covers the whole object (`bytes 0-(C-1)/C`);
refetch on Range with 200/206 and partial coverage; otherwise no refetch. -/
def refetchPerClaim (inp : RefetchInput) : Bool :=
  if inp.method = "HEAD" then true
  else if inp.rangeHdr = "" then false
  else if inp.status = 416 then true
  else if inp.status ≠ 200 ∧ inp.status ≠ 206 then false
  else
    match contentRangeExact inp.contentRange with
    | none => true
    | some (d1, d2, d3) =>
      ¬ (d1 = "0" ∧ parseIntGo d2 = parseIntGo d3 - 1)

/-- The claim's table amended to what the source implements: the
`Content-Range` header is matched by the end-anchored pattern
`bytes d1-d2/d3` (so any suffix of that shape counts, whatever precedes
it), "covers the whole object" means the first capture is the literal digit
string `"0"` and the 64-bit parses of the second and third captures satisfy
`end = length - 1`. -/
def refetchAmendedTable (inp : RefetchInput) : Bool :=
  if inp.method = "HEAD" then true
  else if inp.rangeHdr = "" then false
  else if inp.status = 416 then true
  else if inp.status ≠ 200 ∧ inp.status ≠ 206 then false
  else
    match contentRangeRegexMatch inp.contentRange with
    | none => true
    | some (d1, d2, d3) =>
      ¬ (d1 = "0" ∧ parseIntGo d2 = parseIntGo d3 - 1)

/-! ### SLO GET orchestration (`handleSloGet`, `buildSloManifest`) -/

/-- The request/backend attributes `handleSloGet` dispatches on. -/
structure SloGetInput where
  funcName : String
  method : String
  formatQuery : String
  ifMatch : String
  ifNoneMatch : String
  rangeHdr : String
  status : Int
  sysmetaEtag : String
  sysmetaSize : String
  contentRange : String
deriving DecidableEq, Repr

/-- What `handleSloGet` decides to do with an identified SLO response:
serve the raw manifest (`multipart-manifest=get`), answer from sysmeta
without touching any segment (the HEAD / conditional short-circuit, which
writes the stored size and quoted etag, replays the upstream status and
returns before any manifest load or segment subrequest), or go on to load
the manifest (refetching it or not) and stream segments. -/
inductive SloGetOutcome where
  | rawManifest (raw : Bool)
  | shortCircuit (status : Int) (contentLength : String) (etag : String)
  | feedManifest (refetch : Bool)
deriving DecidableEq, Repr

/-- The dispatch structure of `handleSloGet`, translated from the source. -/
def handleSloGet (r : SloGetInput) : SloGetOutcome :=
  if r.funcName = "get" then .rawManifest (r.formatQuery = "raw")
  else
    let isConditional := (r.ifMatch ≠ "" ∨ r.ifNoneMatch ≠ "") ∧
      (r.status = 304 ∨ r.status = 412)
    if (r.method = "HEAD" ∨ isConditional) ∧
        (r.sysmetaEtag ≠ "" ∨ r.sysmetaSize ≠ "") then
      .shortCircuit r.status r.sysmetaSize ("\"" ++ r.sysmetaEtag ++ "\"")
    else
      .feedManifest (needToRefetchManifest
        ⟨r.method, r.rangeHdr, r.status, r.contentRange⟩)

/-- What `buildSloManifest` does with the captured subrequest outcome:
either the guard fires and the function returns the error
`Error fetching manifest`, or the captured body (possibly `nil`) is handed
to `json.Unmarshal`. -/
inductive FetchManifestResult where
  | fetchError
  | decodeAttempt (body : Option (List Nat))
deriving DecidableEq, Repr

/-- The manifest-fetch guard of `buildSloManifest`: the source errors only
when `swRefetch.status != 200 && swRefetch.body == nil`; `body` is `none`
when no byte was ever written into the capture sink. -/
def buildSloManifest (status : Int) (body : Option (List Nat)) :
    FetchManifestResult :=
  if status ≠ 200 ∧ body = none then .fetchError
  else .decodeAttempt body

/-! ### Client PUT manifest parser (`parsePutSloManifest`) -/

def maxManifestLen : Nat := 1000

/-- One `dec.Decode` outcome while the streaming decoder still has input
(`dec.More()`): clean end of input (`io.EOF`), a malformed element, or a
decoded `sloPutManifest` item. -/
inductive PutTok where
  | eof
  | bad
  | ok (item : sloPutManifest)
deriving DecidableEq, Repr

/-- The request body as the streaming JSON decoder sees it: either the
first token is not an array start, or it is and a sequence of element
decode outcomes follows. -/
inductive PutBody where
  | notArray
  | arrayOf (items : List PutTok)
deriving DecidableEq, Repr

/-- The element loop of `parsePutSloManifest`. `i` is the loop counter;
the source stops with "too many segments" once `i > maxManifestLen`. -/
def parsePutLoop : List PutTok → Nat → List sloPutManifest × List String
  | [], _ => ([], [])
  | tok :: rest, i =>
    if i > maxManifestLen then ([], ["Invalid manifest json- too many segments"])
    else
      match tok with
      | .eof => ([], [])
      | .bad => ([], ["Invalid manifest json- invalid format."])
      | .ok manItem =>
        if ¬ (goTrimLeftSlash manItem.Path.data).any (fun c => c = '/') then
          match parsePutLoop rest (i + 1) with
          | (m, e) => (m, ("Index " ++ intToStr i ++
              ": path does not refer to an object. Path must be of the form /container/object.") :: e)
        else if manItem.SizeBytes < 0 then
          match parsePutLoop rest (i + 1) with
          | (m, e) => (m, ("Index " ++ intToStr i ++
              ": too small; each segment must be at least 1 byte.") :: e)
        else if manItem.Range ≠ "" ∧ goCountChar '-' manItem.Range.data ≠ 1 then
          match parsePutLoop rest (i + 1) with
          | (m, e) => (m, ("Index " ++ intToStr i ++
              ": invalid or multiple ranges (only one allowed)") :: e)
        else
          match parsePutLoop rest (i + 1) with
          | (m, e) => (manItem :: m, e)

/-- `parsePutSloManifest`: returns the accepted items and the accumulated
error strings. -/
def parsePutSloManifest : PutBody → List sloPutManifest × List String
  | .notArray => ([], ["Invalid manifest json- not a list."])
  | .arrayOf items => parsePutLoop items 0

/-! ### Byte feeder (`byteFeeder`, `feedOutSegments`) -/

/-- The string `byteFeeder` feeds into its `md5.New()` digest when it has
to compute the combined etag: each segment's hash token, written in
manifest order. -/
def byteFeederEtagInput (m : List segItem) : String :=
  m.foldl (fun s si => s ++ si.segLenHash.2) ""

/-- The total length `byteFeeder` computes: the sum of the segments'
contribution lengths. -/
def byteFeederTotalLen (m : List segItem) : Int :=
  m.foldl (fun l si => l + si.segLenHash.1) 0

/-- `feedOutSegments`, translated from the source.  `data si` is the full
stored body of the object segment `si` references; a segment subrequest
with wire range `bytes=subStart-(subEnd-1)` serves exactly
`(data si)[subStart:subEnd]`, which the forward sink streams to the
client.  The function returns the concatenation of all bytes so served.
The `subEnd ≤ 0` branch is Go's `continue`, which skips the final
decrement of the walking range. -/
def feedOutSegments (data : segItem → List Nat) :
    List segItem → HttpRange → List Nat
  | [], _ => []
  | si :: rest, r =>
    if r.Start ≥ si.segLenHash.1 then
      if r.End - si.segLenHash.1 < 0 then []
      else feedOutSegments data rest
        ⟨r.Start - si.segLenHash.1, r.End - si.segLenHash.1⟩
    else if r.End < 0 then []
    else if min si.makeRange.End (si.makeRange.Start + r.End) ≤ 0 then
      feedOutSegments data rest r
    else
      ((data si).drop
          (si.makeRange.Start + (if r.Start > 0 then r.Start else 0)).toNat).take
        (min si.makeRange.End (si.makeRange.Start + r.End) -
          (si.makeRange.Start + (if r.Start > 0 then r.Start else 0))).toNat
        ++ feedOutSegments data rest
          ⟨r.Start - si.segLenHash.1, r.End - si.segLenHash.1⟩

/-- A segment's contributing bytes: the slice of the referenced object
selected by `makeRange`. -/
def segContribBytes (data : segItem → List Nat) (si : segItem) : List Nat :=
  ((data si).drop si.makeRange.Start.toNat).take
    (si.makeRange.End - si.makeRange.Start).toNat

/-- `bytes(M)`: the in-order concatenation of each segment's contributing
bytes. -/
def sloBytes (data : segItem → List Nat) (m : List segItem) : List Nat :=
  (m.map (segContribBytes data)).flatten

/-! ### SLO PUT authoring (`handleSloPut`) -/

/-- `strings.Join(errs, "\n")`. -/
def goJoinNL (l : List String) : String := String.intercalate "\n" l

def listStartsWith : List Char → List Char → Bool
  | _, [] => true
  | [], _ :: _ => false
  | c :: cs, d :: ds => c = d && listStartsWith cs ds

/-- Modelled from the spec: `common.ParseContentTypeForSlo` is code of this
repository that is not among the sources under review.  The spec says the
content type is "stripped of any `swift_bytes=` parameter": parameters
(`;`-separated, optional leading blanks) whose text starts with
`swift_bytes=` are removed. -/
def ParseContentTypeForSlo (ct : String) : String :=
  match goSplitChar ';' ct.data with
  | [] => ct
  | h :: params =>
    let kept := params.filter (fun p =>
      ¬ listStartsWith (p.dropWhile (fun c => c = ' ')) "swift_bytes=".data)
    String.intercalate ";" ((h :: kept).map (fun p => (⟨p⟩ : String)))

/-- The per-segment HEAD subrequest response `handleSloPut` inspects.
`contentLength` is the `Content-Length` header after
`strconv.ParseInt` (`none` when the header does not parse);
`lastModified` is the `Last-Modified` header after the external
`common.ParseDate` / `Format` round trip. -/
structure HeadResp where
  status : Int
  contentLength : Option Int
  etag : String
  xStaticLargeObject : String
  lastModified : String
  contentType : String

/-- The externally visible effects of the PUT / DELETE handlers:
subrequests issued and responses written, in program order.
`persistPUT` records the data of the persisting `PUT` subrequest — the
authored manifest it serializes (`json.Marshal`, an external library
call) and its `X-Object-Sysmeta-Slo-Etag` / `X-Object-Sysmeta-Slo-Size`
headers. `subreqDELETE` records the per-segment delete and the status its
capture sink received. -/
inductive Action where
  | subreqHEAD (path : String)
  | respond (status : Int) (body : String)
  | persistPUT (path : String) (manifest : List segItem) (sloEtag : String)
      (sloSize : Int)
  | subreqDELETE (path : String) (status : Int)
  | forwardNext
deriving DecidableEq, Repr

/-- The range normalization step of the `handleSloPut` validation loop:
parse `spm.Range` against the segment's actual length, require exactly one
range, and return the derived segment size together with the normalized
inclusive `"start-(end-1)"` range string.  An empty `spm.Range` passes
through with the full length. -/
def putRangeStep (range : String) (contentLength : Int) :
    Except String (Int × String) :=
  if range ≠ "" then
    match ParseRange ("bytes=" ++ range) contentLength with
    | .error _ => .error "Index 0: invalid range"
    | .ok [r] => .ok (r.End - r.Start,
        intToStr r.Start ++ "-" ++ intToStr (r.End - 1))
    | .ok _ => .error "Index 0:  multiple ranges (only one allowed)"
  else .ok (contentLength, range)

/-- State threaded through the `handleSloPut` validation loop: accumulated
errors, total size, the string written so far into the streaming SLO-etag
digest, the authored manifest, and the HEAD subrequest paths issued. -/
structure PutLoopState where
  errs : List String
  totalSize : Int
  etagInput : String
  toPut : List segItem
  heads : List String

/-- The `handleSloPut` validation loop, translated from the source.  A
`splitSegPath` failure and a self-reference `break`; every other
per-item failure appends its error and continues.  (The loop variable `i`
used in the source's error messages is declared but never incremented, so
those messages always carry index 0.)  `env` maps a subrequest path to the
backend's HEAD response. -/
def putLoop (account ownContainer ownObject : String) (env : String → HeadResp) :
    List sloPutManifest → PutLoopState → PutLoopState
  | [], st => st
  | spm :: rest, st =>
    match splitSegPath spm.Path with
    | .error _ =>
      { st with errs := st.errs ++ ["invalid manifest path: " ++ spm.Path] }
    | .ok (spmContainer, spmObject) =>
      if spmContainer = ownContainer ∧ spmObject = ownObject then
        { st with errs := st.errs ++
            ["manifest cannot reference itself: " ++ spm.Path] }
      else
        let newPath := "/v1/" ++ account ++ "/" ++ spmContainer ++ "/" ++ spmObject
        let pw := env newPath
        let st1 := { st with heads := st.heads ++ [newPath] }
        if pw.status ≠ 200 then
          putLoop account ownContainer ownObject env rest
            { st1 with errs := st1.errs ++
                [intToStr pw.status ++ " response on segment: " ++ newPath] }
        else
          match pw.contentLength with
          | none =>
            putLoop account ownContainer ownObject env rest
              { st1 with errs := st1.errs ++
                  ["bad content-length on segment: " ++ newPath] }
          | some contentLength =>
            let segEtag := goTrimQuote pw.etag
            let isSlo := pw.xStaticLargeObject = "True"
            if spm.SizeBytes > 0 ∧ contentLength ≠ spm.SizeBytes then
              putLoop account ownContainer ownObject env rest
                { st1 with errs := st1.errs ++
                    ["Unmatching ContentLength (manifest " ++ intToStr spm.SizeBytes ++
                     ") != (segment actual " ++ intToStr contentLength ++
                     ") response on segment: " ++ newPath] }
            else
              match putRangeStep spm.Range contentLength with
              | .error msg =>
                putLoop account ownContainer ownObject env rest
                  { st1 with errs := st1.errs ++ [msg] }
              | .ok (segmentSize, parsedRange) =>
                let st2 := { st1 with totalSize := st1.totalSize + segmentSize }
                if spm.Etag ≠ "" ∧ spm.Etag ≠ segEtag then
                  putLoop account ownContainer ownObject env rest
                    { st2 with errs := st2.errs ++
                        ["Etag Mismatch on " ++ spm.Path ++ ": " ++
                         spm.Etag ++ " != " ++ segEtag] }
                else
                  let newSi : segItem :=
                    { Name := spm.Path, Bytes := contentLength, Hash := segEtag,
                      Range := parsedRange, SubSlo := isSlo,
                      ContentType := ParseContentTypeForSlo pw.contentType,
                      LastModified := pw.lastModified }
                  putLoop account ownContainer ownObject env rest
                    { st2 with
                        etagInput := st2.etagInput ++ newSi.segLenHash.2,
                        toPut := st2.toPut ++ [newSi] }

/-- The state of the `handleSloPut` validation loop over the parsed client
manifest, started from the empty state. -/
def putLoopRun (account ownContainer ownObject : String)
    (env : String → HeadResp) (body : PutBody) : PutLoopState :=
  putLoop account ownContainer ownObject env (parsePutSloManifest body).1
    ⟨[], 0, "", [], []⟩

/-- `handleSloPut` from the manifest parse onward (the earlier guards —
object path, Content-Length/chunked, `X-Copy-From` — reject the request
before any of the behavior the claims are about).  `md5hex s` stands for
the external `fmt.Sprintf("%x", md5digest(s))`: the source streams
`etagInput` into an `md5.New()` digest and hex-encodes its sum.  Note the
source's 422 branch does not return, so the persisting `PUT` follows it. -/
def handleSloPut (account ownContainer ownObject reqEtag : String)
    (md5hex : String → String) (env : String → HeadResp) (body : PutBody) :
    List Action :=
  if (parsePutSloManifest body).2 ≠ [] then
    [.respond 400 (goJoinNL (parsePutSloManifest body).2)]
  else
    ((putLoopRun account ownContainer ownObject env body).heads.map
      Action.subreqHEAD) ++
    (if (putLoopRun account ownContainer ownObject env body).errs ≠ [] then
      [.respond 400 (goJoinNL (putLoopRun account ownContainer ownObject env body).errs)]
     else
      (if reqEtag ≠ "" ∧ goTrimQuote reqEtag ≠
          md5hex (putLoopRun account ownContainer ownObject env body).etagInput then
        [Action.respond 422 "Invalid Etag"]
       else []) ++
      [Action.persistPUT ("/v1/" ++ account ++ "/" ++ ownContainer ++ "/" ++ ownObject)
        (putLoopRun account ownContainer ownObject env body).toPut
        (md5hex (putLoopRun account ownContainer ownObject env body).etagInput)
        (putLoopRun account ownContainer ownObject env body).totalSize])

/-! ### SLO DELETE cascade (`deleteAllSegments`, `handleSloDelete`) -/

/-- `deleteAllSegments`, translated from the source: one
`DELETE ...?multipart-manifest=delete` subrequest per segment, in manifest
order.  `env` maps the subrequest path to the status its capture sink
receives; the source never reads that status.  The only error is a
segment name `splitSegPath` rejects, which stops the loop. -/
def deleteAllSegments (env : String → Int) (account : String) :
    List segItem → List Action × Option String
  | [] => ([], none)
  | si :: rest =>
    match splitSegPath si.Name with
    | .error _ => ([], some ("invalid slo item: " ++ si.Name))
    | .ok (container, object) =>
      let newPath := "/v1/" ++ account ++ "/" ++ container ++ "/" ++ object ++
        "?multipart-manifest=delete"
      let status := env newPath
      match deleteAllSegments env account rest with
      | (acts, e) => (Action.subreqDELETE newPath status :: acts, e)

/-- `handleSloDelete` after the manifest was fetched and decoded
successfully (its two earlier guards return without forwarding).  When
`deleteAllSegments` errors a 400 body is written, but the source does not
return there: the original DELETE is forwarded to the next handler in
every case. -/
def handleSloDelete (env : String → Int) (account : String)
    (manifest : List segItem) : List Action :=
  match deleteAllSegments env account manifest with
  | (acts, e) =>
    acts ++
    (match e with
     | some msg => [Action.respond 400 ("error deleting slo: " ++ msg)]
     | none => []) ++
    [Action.forwardNext]

/-! ### Spec-side definitions used to state the claims -/

/-- The claim's per-segment hash token: the segment's hash when it has no
range, `"<hash>:<range>;"` when it has one. -/
def specHashToken (si : segItem) : String :=
  if si.Range = "" then si.Hash else si.Hash ++ ":" ++ si.Range ++ ";"

/-- The claim's per-segment contribution length: `bytes` without a range,
`range.end - range.start` for a range that parses to exactly one range.
(A non-empty range that does not so parse is outside the claim's cases;
it is mapped to 0 here.) -/
def specContribution (si : segItem) : Int :=
  if si.Range = "" then si.Bytes
  else
    match ParseRange ("bytes=" ++ si.Range) si.Bytes with
    | .ok [r] => r.End - r.Start
    | _ => 0

/-- The segment is in one of the two cases the claim describes: no range,
or a range that parses (against `Bytes`) to exactly one range. -/
def specSegParses (si : segItem) : Prop :=
  si.Range = "" ∨ ∃ r, ParseRange ("bytes=" ++ si.Range) si.Bytes = .ok [r]

/-- The data environment of a byte-level statement is consistent: every
segment's declared `Bytes` is non-negative and equals the stored length of
the object it references. -/
def SegsOk (data : segItem → List Nat) (m : List segItem) : Prop :=
  ∀ si ∈ m, 0 ≤ si.Bytes ∧ ((data si).length : Int) = si.Bytes

/-- A client manifest item that passes every per-item validation of
`parsePutSloManifest`. -/
def validPutItem : sloPutManifest :=
  { Path := "/c/o", Etag := "", SizeBytes := 5, Range := "" }

/-! ## Helper lemmas -/

theorem digitChar_isDigit (d : Nat) (h : d < 10) : (Char.ofNat (48 + d)).isDigit := by
  interval_cases d <;> decide

theorem digitChar_toNat (d : Nat) (h : d < 10) : (Char.ofNat (48 + d)).toNat = 48 + d := by
  interval_cases d <;> decide

theorem isDigit_ne (c sep : Char) (hd : c.isDigit) (hs : ¬ sep.isDigit) : c ≠ sep := by
  intro h
  rw [h] at hd
  exact hs hd

theorem natDigits_ne_nil (n : Nat) : natDigits n ≠ [] := by
  unfold natDigits
  split <;> simp

theorem natDigits_digits (n : Nat) : ∀ c ∈ natDigits n, c.isDigit := by
  induction n using Nat.strong_induction_on with
  | _ n ih =>
    unfold natDigits
    split
    · intro c hc
      rw [List.mem_singleton] at hc
      subst hc
      exact digitChar_isDigit n ‹n < 10›
    · intro c hc
      rcases List.mem_append.mp hc with h | h
      · exact ih (n / 10) (Nat.div_lt_self (by omega) (by omega)) c h
      · rw [List.mem_singleton] at h
        subst h
        exact digitChar_isDigit (n % 10) (Nat.mod_lt _ (by omega))

theorem digitsVal_append_last (xs : List Char) (c : Char) :
    digitsVal (xs ++ [c]) = digitsVal xs * 10 + (c.toNat - 48) := by
  unfold digitsVal
  rw [List.foldl_append]
  rfl

theorem digitsVal_natDigits (n : Nat) : digitsVal (natDigits n) = n := by
  induction n using Nat.strong_induction_on with
  | _ n ih =>
    unfold natDigits
    split
    · show digitsVal [Char.ofNat (48 + n)] = n
      unfold digitsVal
      simp [digitChar_toNat n ‹n < 10›]
    · rw [digitsVal_append_last, ih (n / 10) (Nat.div_lt_self (by omega) (by omega)),
        digitChar_toNat (n % 10) (Nat.mod_lt _ (by omega))]
      omega

theorem parseDigits_natDigits (n : Nat) : parseDigits (natDigits n) = some n := by
  unfold parseDigits
  rw [if_neg (natDigits_ne_nil n), if_neg, digitsVal_natDigits]
  simp only [List.any_eq_true, Bool.not_eq_true']
  rintro ⟨c, hc, hnd⟩
  rw [natDigits_digits n c hc] at hnd
  cases hnd

theorem goSplitChar_not_mem (sep : Char) (l : List Char) (h : sep ∉ l) :
    goSplitChar sep l = [l] := by
  induction l with
  | nil => rfl
  | cons c cs ih =>
    unfold goSplitChar
    rw [if_neg (by simp only [List.mem_cons, not_or] at h; exact fun hh => h.1 hh.symm),
      ih (by simp only [List.mem_cons, not_or] at h; exact h.2)]

theorem goSplitChar_single_sep (sep : Char) (l1 l2 : List Char)
    (h1 : sep ∉ l1) (h2 : sep ∉ l2) :
    goSplitChar sep (l1 ++ sep :: l2) = [l1, l2] := by
  induction l1 with
  | nil =>
    show goSplitChar sep (sep :: l2) = [[], l2]
    unfold goSplitChar
    rw [if_pos rfl, goSplitChar_not_mem sep l2 h2]
  | cons c cs ih =>
    show goSplitChar sep (c :: (cs ++ sep :: l2)) = [c :: cs, l2]
    unfold goSplitChar
    rw [if_neg (by simp only [List.mem_cons, not_or] at h1; exact fun hh => h1.1 hh.symm),
      ih (by simp only [List.mem_cons, not_or] at h1; exact h1.2)]

theorem intToStr_nonneg (i : Int) (h : 0 ≤ i) : intToStr i = ⟨natDigits i.toNat⟩ := by
  unfold intToStr
  rw [if_neg (by omega)]

theorem sep_not_mem_natDigits (n : Nat) (sep : Char) (hs : ¬ sep.isDigit) :
    sep ∉ natDigits n := by
  intro hmem
  exact absurd (natDigits_digits n sep hmem) hs

theorem parseRangeItem_roundtrip (st en size : Int)
    (h1 : 0 ≤ st) (h2 : st < en) (h3 : en ≤ size) :
    parseRangeItem size (natDigits st.toNat ++ '-' :: natDigits (en - 1).toNat) =
      .ok ⟨st, en⟩ := by
  unfold parseRangeItem
  rw [goSplitChar_single_sep '-' _ _
    (sep_not_mem_natDigits _ '-' (by decide))
    (sep_not_mem_natDigits _ '-' (by decide))]
  show parseRangeAB size (natDigits st.toNat) (natDigits (en - 1).toNat) = _
  unfold parseRangeAB
  rw [if_neg (by exact fun h => natDigits_ne_nil _ h.1),
    if_neg (natDigits_ne_nil _), if_neg (natDigits_ne_nil _)]
  rw [parseDigits_natDigits, parseDigits_natDigits]
  show checkRange _ _ _ = _
  unfold checkRange
  rw [Int.toNat_of_nonneg h1, Int.toNat_of_nonneg (by omega : (0:Int) ≤ en - 1)]
  rw [show en - 1 + 1 = en by omega, min_eq_left h3]
  rw [if_pos ⟨h1, h2, h3⟩]

theorem ParseRange_roundtrip (st en size : Int)
    (h1 : 0 ≤ st) (h2 : st < en) (h3 : en ≤ size) :
    ParseRange ("bytes=" ++ intToStr st ++ "-" ++ intToStr (en - 1)) size =
      .ok [⟨st, en⟩] := by
  have hdata : ("bytes=" ++ intToStr st ++ "-" ++ intToStr (en - 1)).data =
      'b' :: 'y' :: 't' :: 'e' :: 's' :: '=' ::
        (natDigits st.toNat ++ '-' :: natDigits (en - 1).toNat) := by
    rw [intToStr_nonneg st h1, intToStr_nonneg (en - 1) (by omega)]
    simp [String.data_append]
  unfold ParseRange
  rw [hdata]
  show parseRanges size (goSplitChar ','
    (natDigits st.toNat ++ '-' :: natDigits (en - 1).toNat)) = _
  rw [goSplitChar_not_mem ',' _ (by
    intro hmem
    rcases List.mem_append.mp hmem with h | h
    · exact sep_not_mem_natDigits _ ',' (by decide) h
    · rcases List.mem_cons.mp h with h' | h'
      · cases h'
      · exact sep_not_mem_natDigits _ ',' (by decide) h')]
  unfold parseRanges
  rw [parseRangeItem_roundtrip st en size h1 h2 h3]
  rfl

theorem makeRange_bounds (si : segItem) (h : 0 ≤ si.Bytes) :
    0 ≤ si.makeRange.Start ∧ si.makeRange.Start ≤ si.makeRange.End ∧
      si.makeRange.End ≤ si.Bytes := by
  unfold segItem.makeRange
  split
  · split
    · next r heq =>
      have hb := ParseRange_ok heq r (List.mem_singleton.mpr rfl)
      exact ⟨hb.1, le_of_lt hb.2.1, hb.2.2⟩
    · exact ⟨le_refl 0, h, le_refl _⟩
  · exact ⟨le_refl 0, h, le_refl _⟩

theorem segLenHash_fst (si : segItem) :
    si.segLenHash.1 = si.makeRange.End - si.makeRange.Start := by
  unfold segItem.segLenHash
  split
  · rfl
  · next hn =>
    unfold segItem.makeRange
    rw [if_neg hn]
    simp

theorem segLenHash_snd (si : segItem) : si.segLenHash.2 = specHashToken si := by
  unfold segItem.segLenHash specHashToken
  by_cases h : si.Range = ""
  · rw [if_neg (fun hh => hh h), if_pos h]
  · rw [if_pos h, if_neg h]

/-- `segLenHash`'s length agrees with the claim's contribution length on
every segment the claim covers. -/
theorem segLenHash_fst_spec (si : segItem) (h : specSegParses si) :
    si.segLenHash.1 = specContribution si := by
  rcases h with h | ⟨r, hr⟩
  · unfold segItem.segLenHash specContribution
    rw [if_neg (by intro h0; exact h0 h), if_pos h]
  · have hne : si.Range ≠ "" := by
      intro h0
      rw [h0] at hr
      have : ParseRange ("bytes=" ++ "") si.Bytes =
          Except.error "invalid range format" := rfl
      rw [this] at hr
      cases hr
    unfold segItem.segLenHash specContribution segItem.makeRange
    rw [if_pos hne, if_neg hne, if_pos hne, hr]

/-! ## C10 -/

/-- C10: for a `segItem` whose `Range` is non-empty but does not parse to
exactly one range against its `Bytes`, `makeRange` falls back to the
whole-object half-open range `{0, Bytes}`, so `segLenHash` reports
contribution length `Bytes` while its hash token still embeds the unparsed
range string as `"<hash>:<range>;"`. -/
theorem c10_range_fallback_inconsistent (si : segItem) (hne : si.Range ≠ "")
    (hfail : ∀ r : HttpRange,
      ParseRange ("bytes=" ++ si.Range) si.Bytes ≠ .ok [r]) :
    si.makeRange = ⟨0, si.Bytes⟩ ∧
    si.segLenHash = (si.Bytes, si.Hash ++ ":" ++ si.Range ++ ";") := by
  have hmr : si.makeRange = ⟨0, si.Bytes⟩ := by
    unfold segItem.makeRange
    rw [if_pos hne]
    split
    · next r heq => exact absurd heq (hfail r)
    · rfl
  refine ⟨hmr, ?_⟩
  unfold segItem.segLenHash
  rw [if_pos hne]
  simp only [hmr]
  simp

/-- Witness for C10: the descriptor with `bytes = 10` and the unsatisfiable
range string `5-2`. -/
theorem c10_witness :
    (segItem.mk "h" "lm" 10 "c/s1" "ct" "5-2" false).makeRange = ⟨0, 10⟩ ∧
    (segItem.mk "h" "lm" 10 "c/s1" "ct" "5-2" false).segLenHash = (10, "h:5-2;") := by
  have h := c10_range_fallback_inconsistent
    (segItem.mk "h" "lm" 10 "c/s1" "ct" "5-2" false)
    (by decide)
    (by
      intro r hr
      rw [show ParseRange ("bytes=" ++ "5-2") 10 =
        Except.error "unsatisfiable range" from rfl] at hr
      cases hr)
  exact h

/-! ## C5 -/

/-- C5 counterexample: a manifest-fetch outcome with status 500 and a
non-empty captured body is not "status 200 with a non-empty body", yet
`buildSloManifest` does not yield `Error fetching manifest`: its guard
requires status ≠ 200 AND a nil body, so it proceeds to decode the body. -/
theorem c5_counterexample :
    (500 : Int) ≠ 200 ∧
    buildSloManifest 500 (some [91, 93]) = .decodeAttempt (some [91, 93]) ∧
    buildSloManifest 500 (some [91, 93]) ≠ .fetchError := by decide

/-- C5 (amended): fetching an SLO manifest yields `Error fetching manifest`
exactly when the subrequest status is not 200 and no body byte was
captured; in every other outcome the captured body is handed to the JSON
decoder. -/
theorem c5_fetch_error_iff (status : Int) (body : Option (List Nat)) :
    buildSloManifest status body = .fetchError ↔ (status ≠ 200 ∧ body = none) := by
  unfold buildSloManifest
  split
  · next h => exact iff_of_true rfl h
  · next h => exact iff_of_false (by intro hh; cases hh) h

/-! ## C4 -/

/-- C4: on a HEAD request (or an `If-Match`/`If-None-Match` short-circuit
that produced 304 or 412) against an SLO whose backend response carries
both sysmeta headers, the middleware answers with `Content-Length` equal to
`Slo-Size` and a quoted `Etag` equal to `Slo-Etag`, preserves the upstream
status, and takes the short-circuit return: no body is streamed and no
segment subrequest is issued. -/
theorem c4_head_sysmeta_short_circuit (r : SloGetInput) (hfn : r.funcName ≠ "get")
    (hcase : r.method = "HEAD" ∨
      ((r.ifMatch ≠ "" ∨ r.ifNoneMatch ≠ "") ∧ (r.status = 304 ∨ r.status = 412)))
    (hetag : r.sysmetaEtag ≠ "") (hsize : r.sysmetaSize ≠ "") :
    handleSloGet r = .shortCircuit r.status r.sysmetaSize
      ("\"" ++ r.sysmetaEtag ++ "\"") := by
  unfold handleSloGet
  rw [if_neg hfn, if_pos ⟨hcase, Or.inl hetag⟩]

/-- Witness for C4: a HEAD with sysmeta `Slo-Etag = X`, `Slo-Size = 12`. -/
theorem c4_witness :
    handleSloGet ⟨"", "HEAD", "", "", "", "", 200, "X", "12", ""⟩ =
      .shortCircuit 200 "12" "\"X\"" := by
  have h := c4_head_sysmeta_short_circuit
    ⟨"", "HEAD", "", "", "", "", 200, "X", "12", ""⟩
    (by decide) (Or.inl rfl) (by decide) (by decide)
  exact h

/-! ## C7 -/

/-- C7 counterexample: with a Range header, status 200 and
`Content-Range: xbytes 0-9/10` — malformed under the spec's
"of the form `bytes A-B/C`" reading — the source's end-anchored regular
expression still matches the suffix `bytes 0-9/10` and sees full coverage,
so the code does not refetch while the claim's table says refetch. -/
theorem c7_counterexample :
    needToRefetchManifest ⟨"GET", "bytes=0-5", 200, "xbytes 0-9/10"⟩ = false ∧
    refetchPerClaim ⟨"GET", "bytes=0-5", 200, "xbytes 0-9/10"⟩ = true := by decide

/-- C7 (amended): the refetch decision follows the claimed table with the
`Content-Range` test amended to what the source implements: the header is
matched by an end-anchored search for `bytes d1-d2/d3` (so leading junk is
ignored), and "covers the whole object" means the first capture is the
literal string `"0"` and the 64-bit integer parses of the second and third
captures satisfy `end = length - 1`. -/
theorem c7_refetch_follows_amended_table (inp : RefetchInput) :
    needToRefetchManifest inp = refetchAmendedTable inp := by
  unfold needToRefetchManifest refetchAmendedTable
  by_cases hm : inp.method = "HEAD"
  · rw [if_pos hm, if_pos hm]
  · rw [if_neg hm, if_neg hm]
    by_cases hr : inp.rangeHdr = ""
    · rw [if_pos hr, if_neg (fun h => h.1 hr), if_neg (fun h => h.1 hr)]
    · rw [if_neg hr]
      by_cases h416 : inp.status = 416
      · rw [if_pos ⟨hr, h416⟩, if_pos h416]
      · rw [if_neg (fun h => h416 h.2), if_neg h416]
        by_cases h20x : inp.status = 200 ∨ inp.status = 206
        · rw [if_pos ⟨hr, h20x⟩, if_neg (by push_neg; intro h; cases h20x with
            | inl h1 => exact absurd h1 h
            | inr h2 => exact h2)]
        · rw [if_neg (fun h => h20x h.2), if_pos (by push_neg at h20x; exact h20x)]

/-! ## C9 -/

theorem deleteAllSegments_env_invariant (env env' : String → Int)
    (account : String) (m : List segItem) :
    (deleteAllSegments env account m).1.length =
      (deleteAllSegments env' account m).1.length ∧
    (deleteAllSegments env account m).2 = (deleteAllSegments env' account m).2 := by
  induction m with
  | nil => exact ⟨rfl, rfl⟩
  | cons si rest ih =>
    unfold deleteAllSegments
    cases hsp : splitSegPath si.Name with
    | error e => exact ⟨rfl, rfl⟩
    | ok p =>
      obtain ⟨c, o⟩ := p
      refine ⟨?_, ih.2⟩
      simp only [List.length_cons, ih.1]

/-- C9: once the SLO manifest has been fetched successfully, the original
DELETE is always forwarded to the next handler — the last action is
`forwardNext` even when `deleteAllSegments` returned an error and a 400
body was already written — and inside `deleteAllSegments` the per-segment
delete statuses are received but never read: the subrequest trace and the
returned error are the same under any assignment of segment statuses. -/
theorem c9_delete_always_forwards (env env' : String → Int) (account : String)
    (manifest : List segItem) :
    (handleSloDelete env account manifest).getLast? = some Action.forwardNext ∧
    (deleteAllSegments env account manifest).1.length =
      (deleteAllSegments env' account manifest).1.length ∧
    (deleteAllSegments env account manifest).2 =
      (deleteAllSegments env' account manifest).2 := by
  refine ⟨?_, deleteAllSegments_env_invariant env env' account manifest⟩
  unfold handleSloDelete
  cases hd : deleteAllSegments env account manifest with
  | mk acts e =>
    exact List.getLast?_concat _

/-! ## C6 -/

theorem parsePutLoop_valid_replicate (n i : Nat)
    (h : i + n ≤ maxManifestLen + 1) :
    parsePutLoop (List.replicate n (PutTok.ok validPutItem)) i =
      (List.replicate n validPutItem, []) := by
  induction n generalizing i with
  | zero => rfl
  | succ k ih =>
    rw [List.replicate_succ, List.replicate_succ]
    unfold parsePutLoop
    rw [if_neg (by unfold maxManifestLen; unfold maxManifestLen at h; omega)]
    show (match parsePutLoop (List.replicate k (PutTok.ok validPutItem)) (i + 1) with
      | (m, e) => (validPutItem :: m, e)) = _
    rw [ih (i + 1) (by omega)]

/-- C6: the streaming client-PUT manifest parser does not stop at 1000
items: a JSON array of 1001 valid entries is fully accepted — the returned
manifest has 1001 items and no error is reported — although the declared
bound (`maxManifestLen`, advertised as `max_manifest_segments`) is 1000.
The guard `i > maxManifestLen` only fires from the 1002nd element on. -/
theorem c6_limit_off_by_one :
    (parsePutSloManifest (PutBody.arrayOf
      (List.replicate 1001 (PutTok.ok validPutItem)))).1.length = 1001 ∧
    (parsePutSloManifest (PutBody.arrayOf
      (List.replicate 1001 (PutTok.ok validPutItem)))).2 = [] := by
  have h := parsePutLoop_valid_replicate 1001 0 (by unfold maxManifestLen; omega)
  show (parsePutLoop (List.replicate 1001 (PutTok.ok validPutItem)) 0).1.length = 1001 ∧
    (parsePutLoop (List.replicate 1001 (PutTok.ok validPutItem)) 0).2 = []
  rw [h]
  exact ⟨by rw [List.length_replicate], rfl⟩

/-! ## Fold helpers -/

theorem strFoldlAppend {α : Type} (f : α → String) (m : List α) (s0 : String) :
    m.foldl (fun s si => s ++ f si) s0 = s0 ++ m.foldl (fun s si => s ++ f si) "" := by
  induction m generalizing s0 with
  | nil => simp
  | cons a t ih =>
    simp only [List.foldl_cons]
    rw [ih (s0 ++ f a), ih ("" ++ f a)]
    simp [String.append_assoc]

theorem strFoldlId (m : List String) (s0 : String) :
    m.foldl (fun r s => r ++ s) s0 = s0 ++ m.foldl (fun r s => r ++ s) "" := by
  induction m generalizing s0 with
  | nil => simp
  | cons a t ih =>
    simp only [List.foldl_cons]
    rw [ih (s0 ++ a), ih ("" ++ a)]
    simp [String.append_assoc]

theorem joinStrCons (a : String) (s : List String) :
    String.join (a :: s) = a ++ String.join s := by
  simp only [String.join, List.foldl_cons]
  rw [strFoldlId s ("" ++ a)]
  simp

theorem intFoldlAdd {α : Type} (f : α → Int) (m : List α) (a0 : Int) :
    m.foldl (fun l si => l + f si) a0 = a0 + (m.map f).sum := by
  induction m generalizing a0 with
  | nil => simp
  | cons a t ih =>
    simp only [List.foldl_cons, List.map_cons, List.sum_cons]
    rw [ih (a0 + f a)]
    ring

theorem byteFeederEtagInput_tokens (m : List segItem) :
    byteFeederEtagInput m = String.join (m.map specHashToken) := by
  unfold byteFeederEtagInput
  induction m with
  | nil => rfl
  | cons si rest ih =>
    simp only [List.foldl_cons, List.map_cons]
    rw [strFoldlAppend _ rest ("" ++ si.segLenHash.2), joinStrCons, ← ih]
    simp [segLenHash_snd]

theorem byteFeederTotalLen_eq_sum (m : List segItem) :
    byteFeederTotalLen m = (m.map (fun si => si.segLenHash.1)).sum := by
  unfold byteFeederTotalLen
  rw [intFoldlAdd]
  simp

theorem byteFeederTotalLen_cons (si : segItem) (rest : List segItem) :
    byteFeederTotalLen (si :: rest) = si.segLenHash.1 + byteFeederTotalLen rest := by
  rw [byteFeederTotalLen_eq_sum, byteFeederTotalLen_eq_sum]
  simp

/-! ## PUT-loop lemmas -/

theorem putLoop_errs_ne_nil (acct ownC ownO : String) (env : String → HeadResp) :
    ∀ (l : List sloPutManifest) (st : PutLoopState), st.errs ≠ [] →
      (putLoop acct ownC ownO env l st).errs ≠ [] := by
  intro l
  induction l with
  | nil => intro st h; exact h
  | cons spm rest ih =>
    intro st h
    unfold putLoop
    cases hsp : splitSegPath spm.Path with
    | error e => simp
    | ok p =>
      obtain ⟨c', o'⟩ := p
      by_cases hself : c' = ownC ∧ o' = ownO
      · simp [hself]
      · simp only [hself, if_false]
        repeat' split
        all_goals try apply ih
        all_goals simp_all

theorem putLoop_selfref_errs (acct ownC ownO : String) (env : String → HeadResp) :
    ∀ (l : List sloPutManifest) (st : PutLoopState),
      (∃ spm ∈ l, splitSegPath spm.Path = .ok (ownC, ownO)) →
      (putLoop acct ownC ownO env l st).errs ≠ [] := by
  intro l
  induction l with
  | nil =>
    intro st h
    rcases h with ⟨spm, hm, _⟩
    cases hm
  | cons spm rest ih =>
    intro st h
    rcases h with ⟨x, hx, hsplit⟩
    rcases List.mem_cons.mp hx with rfl | hxrest
    · unfold putLoop
      simp [hsplit]
    · unfold putLoop
      cases hsp : splitSegPath spm.Path with
      | error e => simp
      | ok p =>
        obtain ⟨c', o'⟩ := p
        by_cases hself : c' = ownC ∧ o' = ownO
        · simp [hself]
        · simp only [hself, if_false]
          repeat' split
          all_goals exact ih _ ⟨x, hxrest, hsplit⟩

/-- When the range-normalization step succeeds, the authored descriptor's
range re-parses (against its recorded `Bytes`) to exactly the same range,
so the claim's contribution length of the authored descriptor equals the
segment size the loop accumulated. -/
theorem putRangeStep_contribution (range : String) (cl ss : Int) (pr : String)
    (h : putRangeStep range cl = .ok (ss, pr)) (si : segItem)
    (hB : si.Bytes = cl) (hR : si.Range = pr) :
    specContribution si = ss ∧ specSegParses si := by
  unfold putRangeStep at h
  split at h
  · -- range ≠ "" : parse happened
    split at h
    · cases h
    · next r heq =>
      cases h
      have hb := ParseRange_ok heq r (List.mem_singleton.mpr rfl)
      have hrt : ParseRange ("bytes=" ++ si.Range) si.Bytes = .ok [r] := by
        rw [hR, hB]
        exact ParseRange_roundtrip r.Start r.End cl hb.1 hb.2.1 hb.2.2
      have hne : si.Range ≠ "" := by
        intro h0
        rw [h0] at hrt
        have : ParseRange ("bytes=" ++ "") si.Bytes =
            Except.error "invalid range format" := rfl
        rw [this] at hrt
        cases hrt
      constructor
      · unfold specContribution
        rw [if_neg hne, hrt]
      · exact Or.inr ⟨r, hrt⟩
    · cases h
  · -- range = "" : pass-through
    cases h
    have hne : si.Range = "" := by rw [hR]; by_contra h0; exact ‹¬¬ _› h0
    constructor
    · unfold specContribution
      rw [if_pos hne, hB]
    · exact Or.inl hne

/-- When the validation loop finishes with no accumulated error, the
authored manifest items it appended carry exactly the etag-digest input
and the total size: the digest input grows by each authored item's hash
token and the total size by its contribution length. -/
theorem putLoop_persist_inv (acct ownC ownO : String) (env : String → HeadResp) :
    ∀ (l : List sloPutManifest) (st : PutLoopState),
      (putLoop acct ownC ownO env l st).errs = [] →
      ∃ Δ : List segItem,
        (putLoop acct ownC ownO env l st).toPut = st.toPut ++ Δ ∧
        (putLoop acct ownC ownO env l st).etagInput =
          st.etagInput ++ String.join (Δ.map specHashToken) ∧
        (putLoop acct ownC ownO env l st).totalSize =
          st.totalSize + (Δ.map specContribution).sum := by
  intro l
  induction l with
  | nil =>
    intro st _
    exact ⟨[], by simp [putLoop], by simp [putLoop, String.join], by simp [putLoop]⟩
  | cons spm rest ih =>
    intro st
    unfold putLoop
    cases hsp : splitSegPath spm.Path with
    | error e => intro h; exact absurd h (by simp)
    | ok p =>
      obtain ⟨c', o'⟩ := p
      by_cases hself : c' = ownC ∧ o' = ownO
      · simp only [hself, if_true]
        intro h
        exact absurd h (by simp)
      · simp only [hself, if_false]
        repeat' split
        -- every remaining branch is a recursive call; the error branches
        -- enter it with a non-empty error list
        all_goals intro h
        all_goals try (refine absurd h (putLoop_errs_ne_nil acct ownC ownO env rest _ ?_) <;> (simp; done))
        rename_i cl hcl hsz xr ss pr hrs hmm
        obtain ⟨Δ, h1, h2, h3⟩ := ih _ h
        refine ⟨⟨goTrimQuote (env ("/v1/" ++ acct ++ "/" ++ c' ++ "/" ++ o')).etag,
          (env ("/v1/" ++ acct ++ "/" ++ c' ++ "/" ++ o')).lastModified,
          cl, spm.Path,
          ParseContentTypeForSlo (env ("/v1/" ++ acct ++ "/" ++ c' ++ "/" ++ o')).contentType,
          pr,
          decide ((env ("/v1/" ++ acct ++ "/" ++ c' ++ "/" ++ o')).xStaticLargeObject = "True")⟩
            :: Δ, ?_, ?_, ?_⟩
        · rw [h1]
          simp
        · rw [h2]
          simp [List.map_cons, joinStrCons, String.append_assoc, segLenHash_snd]
        · rw [h3]
          have hc := putRangeStep_contribution spm.Range cl ss pr hrs
            ⟨goTrimQuote (env ("/v1/" ++ acct ++ "/" ++ c' ++ "/" ++ o')).etag,
             (env ("/v1/" ++ acct ++ "/" ++ c' ++ "/" ++ o')).lastModified,
             cl, spm.Path,
             ParseContentTypeForSlo (env ("/v1/" ++ acct ++ "/" ++ c' ++ "/" ++ o')).contentType,
             pr,
             decide ((env ("/v1/" ++ acct ++ "/" ++ c' ++ "/" ++ o')).xStaticLargeObject = "True")⟩
            rfl rfl
          simp only [List.map_cons, List.sum_cons, hc.1]
          omega

/-! ## C8 -/

/-- C8: an SLO PUT whose parsed client manifest contains an entry whose
path splits into the manifest's own (container, object) is rejected with a
400 response carrying the accumulated errors, and no persisting PUT
subrequest is issued. -/
theorem c8_self_reference_rejected (acct ownC ownO reqEtag : String)
    (md5hex : String → String) (env : String → HeadResp) (body : PutBody)
    (h : ∃ spm ∈ (parsePutSloManifest body).1,
      splitSegPath spm.Path = .ok (ownC, ownO)) :
    (∃ msg, Action.respond 400 msg ∈
      handleSloPut acct ownC ownO reqEtag md5hex env body) ∧
    (∀ (p : String) (mani : List segItem) (etg : String) (sz : Int),
      Action.persistPUT p mani etg sz ∉
        handleSloPut acct ownC ownO reqEtag md5hex env body) := by
  unfold handleSloPut
  by_cases hp : (parsePutSloManifest body).2 ≠ []
  · rw [if_pos hp]
    refine ⟨⟨_, List.mem_singleton.mpr rfl⟩, ?_⟩
    intro p mani etg sz hm
    rw [List.mem_singleton] at hm
    cases hm
  · rw [if_neg hp]
    have herrs : (putLoopRun acct ownC ownO env body).errs ≠ [] :=
      putLoop_selfref_errs acct ownC ownO env _ _ h
    rw [if_pos herrs]
    constructor
    · exact ⟨goJoinNL (putLoopRun acct ownC ownO env body).errs,
        List.mem_append.mpr (Or.inr (List.mem_singleton.mpr rfl))⟩
    · intro p mani etg sz hm
      rcases List.mem_append.mp hm with hl | hr
      · rcases List.mem_map.mp hl with ⟨q, _, hq⟩
        cases hq
      · rw [List.mem_singleton] at hr
        cases hr

/-- Witness for C8: a one-entry manifest pointing at the manifest's own
`/c/o`. -/
theorem c8_witness :
    (∃ msg, Action.respond 400 msg ∈
      handleSloPut "a" "c" "o" "" (fun s => s)
        (fun _ => ⟨200, some 5, "e", "", "lm", "ct"⟩)
        (PutBody.arrayOf [PutTok.ok ⟨"/c/o", "", 0, ""⟩])) ∧
    (∀ (p : String) (mani : List segItem) (etg : String) (sz : Int),
      Action.persistPUT p mani etg sz ∉
        handleSloPut "a" "c" "o" "" (fun s => s)
          (fun _ => ⟨200, some 5, "e", "", "lm", "ct"⟩)
          (PutBody.arrayOf [PutTok.ok ⟨"/c/o", "", 0, ""⟩])) :=
  c8_self_reference_rejected "a" "c" "o" "" (fun s => s)
    (fun _ => ⟨200, some 5, "e", "", "lm", "ct"⟩)
    (PutBody.arrayOf [PutTok.ok ⟨"/c/o", "", 0, ""⟩])
    ⟨⟨"/c/o", "", 0, ""⟩, by decide, by rfl⟩

/-! ## C3 -/

/-- C3 (code-bug evidence): on an SLO PUT whose client-supplied `Etag`
header (`"WRONG"`) differs from the computed SLO etag, the source writes
the 422 response but — the branch has no `return` — still issues the
persisting PUT subrequest right after it.  (`md5hex` is instantiated with
the identity to keep the trace concrete; the source behavior does not
depend on it.) -/
theorem c3_mismatch_writes_422_then_persists :
    handleSloPut "a" "c" "o" "WRONG" (fun s => s)
      (fun _ => ⟨200, some 5, "e1", "", "lm", "text/plain"⟩)
      (PutBody.arrayOf [PutTok.ok ⟨"/c/s1", "", 5, ""⟩]) =
    [Action.subreqHEAD "/v1/a/c/s1",
     Action.respond 422 "Invalid Etag",
     Action.persistPUT "/v1/a/c/o"
       [⟨"e1", "lm", 5, "/c/s1", "text/plain", "", false⟩] "e1" 5] := by
  decide

/-! ## C2 -/

/-- C2: both on the byte-feeder read path and on SLO PUT authoring, the
combined SLO etag is the digest of the concatenation of the per-segment
hash tokens in manifest order, and the total size is the sum of the
per-segment contribution lengths — where a segment without a range
contributes `bytes` and token `hash`, and a segment with a parsed range
contributes `range.end - range.start` and token `"<hash>:<range>;"`.
First conjunct: the byte feeder's on-the-fly digest input and total
length.  Second conjunct: the sysmeta etag and size of any persisting PUT
issued by `handleSloPut` (with `md5hex` the external hex-MD5). -/
theorem c2_slo_etag_and_size :
    (∀ m : List segItem, (∀ si ∈ m, specSegParses si) →
        byteFeederEtagInput m = String.join (m.map specHashToken) ∧
        byteFeederTotalLen m = (m.map specContribution).sum) ∧
    (∀ (acct ownC ownO reqEtag : String) (md5hex : String → String)
        (env : String → HeadResp) (body : PutBody) (p : String)
        (mani : List segItem) (etg : String) (sz : Int),
        Action.persistPUT p mani etg sz ∈
          handleSloPut acct ownC ownO reqEtag md5hex env body →
        etg = md5hex (String.join (mani.map specHashToken)) ∧
        sz = (mani.map specContribution).sum) := by
  constructor
  · intro m hm
    refine ⟨byteFeederEtagInput_tokens m, ?_⟩
    rw [byteFeederTotalLen_eq_sum]
    congr 1
    exact List.map_congr_left (fun si hsi => segLenHash_fst_spec si (hm si hsi))
  · intro acct ownC ownO reqEtag md5hex env body p mani etg sz hm
    unfold handleSloPut at hm
    by_cases hp : (parsePutSloManifest body).2 ≠ []
    · rw [if_pos hp, List.mem_singleton] at hm
      cases hm
    · rw [if_neg hp] at hm
      by_cases he : (putLoopRun acct ownC ownO env body).errs ≠ []
      · rw [if_pos he] at hm
        rcases List.mem_append.mp hm with hl | hr
        · rcases List.mem_map.mp hl with ⟨q, _, hq⟩
          cases hq
        · rw [List.mem_singleton] at hr
          cases hr
      · rw [if_neg he] at hm
        rcases List.mem_append.mp hm with hl | hr
        · rcases List.mem_map.mp hl with ⟨q, _, hq⟩
          cases hq
        · rcases List.mem_append.mp hr with h1 | h2
          · rcases hcond : (decide (reqEtag ≠ "" ∧ goTrimQuote reqEtag ≠
              md5hex (putLoopRun acct ownC ownO env body).etagInput) : Bool) with _ | _
            · rw [if_neg (by simpa using hcond)] at h1
              cases h1
            · rw [if_pos (by simpa using hcond), List.mem_singleton] at h1
              cases h1
          · rw [List.mem_singleton] at h2
            obtain ⟨hpe, hmani, hetg, hsz⟩ := Action.persistPUT.inj h2
            rw [not_not] at he
            obtain ⟨Δ, h1, h2', h3⟩ :=
              putLoop_persist_inv acct ownC ownO env (parsePutSloManifest body).1
                ⟨[], 0, "", [], []⟩ he
            have hmΔ : mani = Δ := by rw [hmani]; exact h1.trans (by simp)
            constructor
            · rw [hetg, hmΔ]
              exact congrArg md5hex (h2'.trans (by simp))
            · rw [hsz, hmΔ]
              exact h3.trans (by simp)

/-- Witness for C2: the byte-feeder conjunct at a two-segment manifest
(one ranged) and the PUT conjunct at a one-segment authoring. -/
theorem c2_witness :
    (byteFeederEtagInput
        [⟨"e1", "", 5, "c/s1", "", "", false⟩, ⟨"e2", "", 7, "c/s2", "", "2-5", false⟩] =
      String.join (List.map specHashToken
        [⟨"e1", "", 5, "c/s1", "", "", false⟩, ⟨"e2", "", 7, "c/s2", "", "2-5", false⟩]) ∧
      byteFeederTotalLen
        [⟨"e1", "", 5, "c/s1", "", "", false⟩, ⟨"e2", "", 7, "c/s2", "", "2-5", false⟩] =
      (List.map specContribution
        [⟨"e1", "", 5, "c/s1", "", "", false⟩, ⟨"e2", "", 7, "c/s2", "", "2-5", false⟩]).sum) ∧
    ("e1" = (fun s => s) (String.join (List.map specHashToken
        [⟨"e1", "lm", 5, "/c/s1", "text/plain", "", false⟩])) ∧
      (5 : Int) = (List.map specContribution
        [⟨"e1", "lm", 5, "/c/s1", "text/plain", "", false⟩]).sum) := by
  constructor
  · exact c2_slo_etag_and_size.1
      [⟨"e1", "", 5, "c/s1", "", "", false⟩, ⟨"e2", "", 7, "c/s2", "", "2-5", false⟩]
      (by
        intro si hsi
        rcases List.mem_cons.mp hsi with rfl | hsi2
        · exact Or.inl rfl
        · rcases List.mem_cons.mp hsi2 with rfl | hsi3
          · exact Or.inr ⟨⟨2, 6⟩, by rfl⟩
          · cases hsi3)
  · exact c2_slo_etag_and_size.2 "a" "c" "o" "" (fun s => s)
      (fun _ => ⟨200, some 5, "e1", "", "lm", "text/plain"⟩)
      (PutBody.arrayOf [PutTok.ok ⟨"/c/s1", "", 5, ""⟩])
      "/v1/a/c/o" [⟨"e1", "lm", 5, "/c/s1", "text/plain", "", false⟩] "e1" 5
      (by decide)

/-! ## C1 -/

theorem segContribBytes_length (data : segItem → List Nat) (si : segItem)
    (h1 : 0 ≤ si.Bytes) (h2 : ((data si).length : Int) = si.Bytes) :
    ((segContribBytes data si).length : Int) = si.segLenHash.1 := by
  obtain ⟨ha, hb, hc⟩ := makeRange_bounds si h1
  rw [segLenHash_fst]
  unfold segContribBytes
  rw [List.length_take, List.length_drop]
  omega

theorem segLenHash_fst_nonneg (si : segItem) (h : 0 ≤ si.Bytes) :
    0 ≤ si.segLenHash.1 := by
  rw [segLenHash_fst]
  obtain ⟨_, hb, _⟩ := makeRange_bounds si h
  omega

theorem sloBytes_cons (data : segItem → List Nat) (si : segItem)
    (rest : List segItem) :
    sloBytes data (si :: rest) = segContribBytes data si ++ sloBytes data rest := by
  unfold sloBytes
  simp

theorem byteFeederTotalLen_nonneg (m : List segItem)
    (h : ∀ si ∈ m, 0 ≤ si.Bytes) : 0 ≤ byteFeederTotalLen m := by
  induction m with
  | nil => simp [byteFeederTotalLen]
  | cons si rest ih =>
    rw [byteFeederTotalLen_cons]
    have h1 := segLenHash_fst_nonneg si (h si (List.mem_cons_self _ _))
    have h2 := ih (fun x hx => h x (List.mem_cons_of_mem _ hx))
    omega

theorem sloBytes_length (data : segItem → List Nat) (m : List segItem)
    (hok : SegsOk data m) :
    ((sloBytes data m).length : Int) = byteFeederTotalLen m := by
  induction m with
  | nil => simp [sloBytes, byteFeederTotalLen]
  | cons si rest ih =>
    rw [byteFeederTotalLen_cons, sloBytes_cons, List.length_append]
    have h1 := segContribBytes_length data si (hok si (List.mem_cons_self _ _)).1
      (hok si (List.mem_cons_self _ _)).2
    have h2 := ih (fun x hx => hok x (List.mem_cons_of_mem _ hx))
    push_cast
    omega

/-- When the walking range's start has already gone non-positive (every
byte of the remaining range lies in the remaining segments), the feeder
yields exactly the first `End` bytes of the remaining segments' bytes. -/
theorem feedOutSegments_nonposStart (data : segItem → List Nat) :
    ∀ (m : List segItem), SegsOk data m → ∀ (s e : Int), s ≤ 0 →
      e ≤ byteFeederTotalLen m →
      feedOutSegments data m ⟨s, e⟩ = (sloBytes data m).take e.toNat := by
  intro m
  induction m with
  | nil => intro _ s e _ _; simp [feedOutSegments, sloBytes]
  | cons si rest ih =>
    intro hok s e hs he
    have hsi := hok si (List.mem_cons_self _ _)
    have hrest : SegsOk data rest := fun x hx => hok x (List.mem_cons_of_mem _ hx)
    have hmr := makeRange_bounds si hsi.1
    have hlen := segContribBytes_length data si hsi.1 hsi.2
    have hseg := segLenHash_fst si
    have htot := byteFeederTotalLen_cons si rest
    have htotr := byteFeederTotalLen_nonneg rest (fun x hx => (hrest x hx).1)
    rw [htot] at he
    simp only [feedOutSegments]
    by_cases h1 : s ≥ si.segLenHash.1
    · rw [if_pos h1]
      by_cases h2 : e - si.segLenHash.1 < 0
      · rw [if_pos h2]
        rw [show e.toNat = 0 by omega, List.take_zero]
      · rw [if_neg h2]
        rw [ih hrest (s - si.segLenHash.1) (e - si.segLenHash.1) (by omega) (by omega)]
        rw [sloBytes_cons]
        have hcl : segContribBytes data si = [] :=
          List.length_eq_zero.mp (by omega)
        rw [hcl, List.nil_append]
        congr 1
        omega
    · rw [if_neg h1]
      by_cases h2 : e < 0
      · rw [if_pos h2]
        rw [show e.toNat = 0 by omega, List.take_zero]
      · rw [if_neg h2]
        by_cases h3 : min si.makeRange.End (si.makeRange.Start + e) ≤ 0
        · rw [if_pos h3]
          rw [ih hrest s e hs (by omega)]
          rw [sloBytes_cons]
          rcases (by omega : si.makeRange.End = 0 ∨ e = 0) with h4 | h4
          · have hcl : segContribBytes data si = [] :=
              List.length_eq_zero.mp (by omega)
            rw [hcl, List.nil_append]
          · rw [h4]
            rw [show (0 : Int).toNat = 0 from rfl, List.take_zero, List.take_zero]
        · rw [if_neg h3]
          rw [if_neg (by omega : ¬ s > 0)]
          rw [ih hrest (s - si.segLenHash.1) (e - si.segLenHash.1) (by omega) (by omega)]
          rw [sloBytes_cons, List.take_append_eq_append_take]
          congr 1
          · unfold segContribBytes
            rw [List.take_take]
            congr 1
            · omega
            · congr 2
              omega
          · congr 1
            omega

/-- C1: for every SLO manifest and requested byte range `[s, e)` with
`0 ≤ s < e ≤ totalLen`, the byte feeder walks the manifest in order,
issues for each touched segment the sub-request
`[segStart + max(s', 0), min(segEnd, segStart + e'))` of the walking range
`(s', e')` (served on the wire as inclusive `bytes=subStart-(subEnd-1)`),
and the concatenation of all bytes so served equals the substring
`bytes(M)[s:e]` of the in-order concatenation of the segments'
contributing bytes. -/
theorem c1_feed_serves_substring (data : segItem → List Nat) :
    ∀ (m : List segItem), SegsOk data m → ∀ (s e : Int),
      0 ≤ s → s < e → e ≤ byteFeederTotalLen m →
      feedOutSegments data m ⟨s, e⟩ =
        ((sloBytes data m).drop s.toNat).take (e - s).toNat := by
  intro m
  induction m with
  | nil => intro _ s e _ _ _; simp [feedOutSegments, sloBytes]
  | cons si rest ih =>
    intro hok s e h0 hse he
    have hsi := hok si (List.mem_cons_self _ _)
    have hrest : SegsOk data rest := fun x hx => hok x (List.mem_cons_of_mem _ hx)
    have hmr := makeRange_bounds si hsi.1
    have hlen := segContribBytes_length data si hsi.1 hsi.2
    have hseg := segLenHash_fst si
    have htot := byteFeederTotalLen_cons si rest
    have htotr := byteFeederTotalLen_nonneg rest (fun x hx => (hrest x hx).1)
    rw [htot] at he
    simp only [feedOutSegments]
    by_cases h1 : s ≥ si.segLenHash.1
    · rw [if_pos h1, if_neg (by omega : ¬ e - si.segLenHash.1 < 0)]
      rw [ih hrest (s - si.segLenHash.1) (e - si.segLenHash.1)
        (by omega) (by omega) (by omega)]
      rw [sloBytes_cons, List.drop_append_eq_append_drop]
      have hdz : (segContribBytes data si).drop s.toNat = [] :=
        List.drop_eq_nil_of_le (by omega)
      rw [hdz, List.nil_append]
      congr 1
      · omega
      · congr 1
        omega
    · rw [if_neg h1, if_neg (by omega : ¬ e < 0)]
      rw [if_neg (by omega :
        ¬ min si.makeRange.End (si.makeRange.Start + e) ≤ 0)]
      rw [show (if s > 0 then s else 0) = s from by split <;> omega]
      rw [feedOutSegments_nonposStart data rest hrest (s - si.segLenHash.1)
        (e - si.segLenHash.1) (by omega) (by omega)]
      rw [sloBytes_cons, List.drop_append_eq_append_drop,
        List.take_append_eq_append_take]
      congr 1
      · unfold segContribBytes
        rw [List.drop_take, List.take_take, List.drop_drop]
        congr 1
        · omega
        · congr 1
          omega
      · rw [List.length_drop,
          show s.toNat - (segContribBytes data si).length = 0 by omega,
          List.drop_zero]
        congr 1
        omega

/-- Witness for C1: a five-byte segment followed by a seven-byte segment
read through range `2-5`, requested range `[3, 8)`. -/
theorem c1_witness :
    feedOutSegments
      (fun si => if si.Name = "c/s1" then [1, 2, 3, 4, 5]
        else [10, 11, 12, 13, 14, 15, 16])
      [⟨"e1", "", 5, "c/s1", "", "", false⟩, ⟨"e2", "", 7, "c/s2", "", "2-5", false⟩]
      ⟨3, 8⟩ =
    ((sloBytes
      (fun si => if si.Name = "c/s1" then [1, 2, 3, 4, 5]
        else [10, 11, 12, 13, 14, 15, 16])
      [⟨"e1", "", 5, "c/s1", "", "", false⟩, ⟨"e2", "", 7, "c/s2", "", "2-5", false⟩]).drop
        (3 : Int).toNat).take ((8 : Int) - 3).toNat :=
  c1_feed_serves_substring
    (fun si => if si.Name = "c/s1" then [1, 2, 3, 4, 5]
      else [10, 11, 12, 13, 14, 15, 16])
    [⟨"e1", "", 5, "c/s1", "", "", false⟩, ⟨"e2", "", 7, "c/s2", "", "2-5", false⟩]
    (by unfold SegsOk; decide) 3 8 (by decide) (by decide) (by decide)

end LargeObject
